import Mathlib

/-!
Verification of the bounded-concurrency promise scheduler
(`Promise.scheduleAndRun`) of this repository.

The repository ships two implementations of the scheduling contract:

* `src/polyfill.js` — the reference implementation: a plain array queue,
  `schedule` returns a boolean admission flag;
* `src/unnamed/part_001` — the buffer-optimized implementation: a growable
  circular buffer, `schedule` returns a per-task promise handle.

The development below embeds `src/polyfill.js` as a deterministic state
machine (`EngineState`, `stepJob`, `runN`): the JS microtask queue is the
`jobs` list, processed in FIFO order, and the observable behaviour of user
code (task bodies starting, hooks being invoked, errors being captured) is
recorded in a ghost `log` of `Event`s.  Task bodies are embedded as finite
trees (`Task`): a body performs a sequence of `schedule` calls and then
settles with a result or a thrown value.

The parts of `src/unnamed/part_001` whose observable behaviour differs from
the reference implementation — its `schedule` closure and its circular
buffer — are embedded separately (`P1State`, `p1Push`, `p1Schedule`,
`p1PopHead`).
-/

namespace PromiseSched

/-- JavaScript values as far as the scheduler observes them.  `typeError`
stands for the `TypeError` produced by invoking a null/undefined function
(`call(handler, ...)` with `handler == null`), `rangeError` for the
`RangeError` thrown by the `maxConcurrency` validation
(`src/polyfill.js` line 35). -/
inductive Val where
  | undefined
  | num (n : Int)
  | str (s : String)
  | typeError
  | rangeError
  deriving DecidableEq

/-- Outcome of the overall completion promise: `resolved v` models
`resolveFn(finalResult)`, `rejected errs` models
`rejectFn(new AggregateError(finalErrors))` (`src/polyfill.js`
lines 97-101); the aggregate is represented by its list of errors in
capture order. -/
inductive Outcome where
  | resolved (v : Val)
  | rejected (errs : List Val)
  deriving DecidableEq

/-- Ghost trace events, recording the observable actions of a run:
a task/initializer body starting to execute, a hook being invoked, an
error being pushed onto `errors`, and `initResult` being assigned.
`rejectedHook` would record an invocation of `opts.onRejected`; the
embedding of `src/polyfill.js` never emits it because the source never
reaches a call of a non-null `onRejected` handler (see `handleRejection`
below). -/
inductive Event where
  | bodyRun
  | resolvedHook (v : Val)
  | rejectedHook (e : Val)
  | captured (e : Val)
  | initSet (v : Val)
  deriving DecidableEq

/-- The validated concurrency limit: `bounded m` for a finite integer
`m ≥ 1`, `unbounded` for the `1e999` (infinity) default of
`src/polyfill.js` lines 29-31. -/
inductive Conc where
  | bounded (m : Nat)
  | unbounded
  deriving DecidableEq

/-- The JS comparison `current < maxConcurrency` where `maxConcurrency`
is either a finite integer or infinity. -/
def Conc.isBelow (n : Int) : Conc → Bool
  | .bounded m => n < (m : Int)
  | .unbounded => true

/-- A JS number as used for the `maxConcurrency` option: `NaN`, the two
infinities, or a finite value (rationals stand in for the finite doubles;
`Math.floor` and the comparisons the source performs agree with their
exact rational counterparts). -/
inductive JNum where
  | nan
  | posInf
  | negInf
  | fin (q : ℚ)
  deriving DecidableEq

/-- `Math.floor`: identity on `NaN` and the infinities, mathematical floor
on finite values. -/
def jsFloor : JNum → JNum
  | .fin q => .fin (⌊q⌋ : ℚ)
  | x => x

/-- The JS test `x >= 1`: false for `NaN` ("NaN fails all checks",
`src/polyfill.js` line 33) and `-Infinity`, true for `Infinity`. -/
def jsGe1 : JNum → Bool
  | .fin q => decide (1 ≤ q)
  | .posInf => true
  | _ => false

/-- A task body, embedded as a finite tree: when run it calls `schedule`
once for each element of `subs`, in order, and then settles with
`result` (`.ok v` = returns/resolves with `v`, `.error e` = throws or
rejects with `e`). -/
inductive Task where
  | mk (subs : List Task) (result : Except Val Val)

/-- A user hook (`opts.onResolved` / `opts.onRejected`): invoked with a
value, it either returns normally (`.ok`) or throws (`.error e`). -/
def Hook := Val → Except Val Unit

/-- The `opts` argument of `Promise.scheduleAndRun`: an optional
`maxConcurrency` and the two optional hooks.  A JS caller passing no
`opts` at all is modelled by `Option OptsObj = none` (the distinction
matters: `handleRejection` behaves differently for `opts == null` and
for an `opts` object without hooks). -/
structure OptsObj where
  maxConcurrency : Option JNum
  onResolved : Option Hook
  onRejected : Option Hook

/-- A pending microtask.  `runTask t` is the job enqueued by
`scheduleJob(function () { return task() })` (`src/polyfill.js`
lines 105-110); `reaction isInit r` is the `then`-reaction on a settled
unit promise — `isInit = true` for the reaction installed on the
initializer promise (lines 136-140), which additionally assigns
`initResult`. -/
inductive Job where
  | runTask (t : Task)
  | reaction (isInit : Bool) (r : Except Val Val)

/-- Whether a job is the initializer's `then`-reaction. -/
def Job.isInitReaction : Job → Bool
  | .reaction true _ => true
  | _ => false

/-- The complete state of one `src/polyfill.js` scheduler instance
together with its pending microtasks (`jobs`) and the ghost trace
(`log`).  `errors`, `active`, `queue`, `initResult`, `opts` are the
closure variables of `P.scheduleAndRun` (lines 42-46); `queue = none`
models the `undefined` queue of the unbounded case (line 46) and the
`queue = 0` wipe at settlement; `settled` is the single-assignment
outcome of the returned promise. -/
structure EngineState where
  errors : List Val
  active : Int
  queue : Option (List Task)
  initResult : Val
  opts : Option OptsObj
  settled : Option Outcome
  log : List Event
  jobs : List Job

/-- `push(errors, e)` plus the ghost `captured` trace event. -/
def pushError (s : EngineState) (e : Val) : EngineState :=
  { s with errors := s.errors ++ [e], log := s.log ++ [.captured e] }

/-- `scheduleTask` (`src/polyfill.js` lines 105-110): defer the task to
the next scheduling opportunity by enqueueing a microtask; nothing else
changes and in particular the body is not executed here. -/
def scheduleTask (s : EngineState) (t : Task) : EngineState :=
  { s with jobs := s.jobs ++ [.runTask t] }

/-- `settleTask` (`src/polyfill.js` lines 82-103): if the queue exists
and is non-empty, shift its head into the freed slot via `scheduleTask`
(no change to `active`); otherwise decrement `active`, and on reaching 0
settle the completion promise — with `new AggregateError(errors)` when
any error was captured, else with `initResult` — and release all
internal state (`errors = queue = resolve = reject = opts =
initResult = 0`, lines 96). -/
def settleTask (s : EngineState) : EngineState :=
  match s.queue with
  | some (next :: rest) => scheduleTask { s with queue := some rest } next
  | _ =>
    let active' := s.active - 1
    if active' = 0 then
      { s with
          active := active'
          settled := some (if s.errors.isEmpty then .resolved s.initResult
                           else .rejected s.errors)
          errors := [], queue := none, opts := none, initResult := .undefined }
    else { s with active := active' }

/-- `handleResolution` (`src/polyfill.js` lines 48-59): when an `opts`
object was given and it has an `onResolved` handler, invoke it with the
value; a throw from the handler is caught and pushed onto `errors`.
Then run `settleTask`. -/
def handleResolution (s : EngineState) (value : Val) : EngineState :=
  let s1 :=
    match s.opts with
    | none => s
    | some o =>
      match o.onResolved with
      | none => s
      | some handler =>
        match handler value with
        | .ok _ => { s with log := s.log ++ [.resolvedHook value] }
        | .error e => pushError { s with log := s.log ++ [.resolvedHook value] } e
  settleTask s1

/-- `handleRejection` (`src/polyfill.js` lines 61-80), translated
faithfully.  The source reads:

    if (opts != null) {
        try {
            var handler = opts.onRejected
            if (handler == null) {
                call(handler, opts, value)
                break rejectionHandled
            }
        } catch (e) {
            value = e
        }
    }
    push(errors, value)

so: with `opts == null` the original error is pushed; with an `opts`
object whose `onRejected` is null, `call(null, ...)` throws a
`TypeError` which the `catch` assigns to `value`, and that `TypeError`
is pushed in place of the original error (`break` is never reached);
with a non-null `onRejected` the `if` body is skipped, the handler is
never invoked, and the original error is pushed unconditionally.  The
identical structure appears in `src/unnamed/part_001` lines 97-116. -/
def handleRejection (s : EngineState) (value : Val) : EngineState :=
  let s1 :=
    match s.opts with
    | none => pushError s value
    | some o =>
      match o.onRejected with
      | none => pushError s .typeError
      | some _ => pushError s value
  settleTask s1

/-- The `schedule` closure handed to the initializer
(`src/polyfill.js` lines 116-131): returns `false` without any effect
when `active === 0` (locked); admits the task immediately — incrementing
`active` and deferring the task via `scheduleTask` — and returns `true`
when `active < maxConcurrency`; otherwise appends the task to the
pending queue and returns `false`.  (In the unbounded case the queue
branch is unreachable since `current < Infinity` always holds.) -/
def scheduleCall (mc : Conc) (s : EngineState) (t : Task) : EngineState × Bool :=
  let current := s.active
  if current = 0 then (s, false)
  else if Conc.isBelow current mc then
    (scheduleTask { s with active := current + 1 } t, true)
  else
    ({ s with queue := s.queue.map (· ++ [t]) }, false)

/-- Execute the `schedule` calls a body performs, in order (the boolean
results are not consumed by the embedded bodies). -/
def runCalls (mc : Conc) : EngineState → List Task → EngineState
  | s, [] => s
  | s, t :: ts => runCalls mc (scheduleCall mc s t).1 ts

/-- Execute a task body: record the ghost `bodyRun` event, perform its
`schedule` calls, and yield its settlement. -/
def runTaskBody (mc : Conc) (s : EngineState) (t : Task) :
    EngineState × Except Val Val :=
  match t with
  | .mk subs result => (runCalls mc { s with log := s.log ++ [.bodyRun] } subs, result)

/-- Process the next pending microtask, in FIFO order.  Running a task
body enqueues its `then`-reaction (the settlement of the
`scheduleJob(...)` promise); the initializer's reaction assigns
`initResult` first (`src/polyfill.js` line 138) and then behaves like
any resolution; rejections go to `handleRejection`. -/
def stepJob (mc : Conc) (s : EngineState) : EngineState :=
  match s.jobs with
  | [] => s
  | j :: rest =>
    let s0 := { s with jobs := rest }
    match j with
    | .runTask t =>
      let p := runTaskBody mc s0 t
      { p.1 with jobs := p.1.jobs ++ [.reaction false p.2] }
    | .reaction isInit r =>
      match r with
      | .ok v =>
        if isInit then
          handleResolution { s0 with initResult := v, log := s0.log ++ [.initSet v] } v
        else handleResolution s0 v
      | .error e => handleRejection s0 e

/-- The body of `P.scheduleAndRun` after validation
(`src/polyfill.js` lines 42-46 and 112-142): initial state with
`active = 1` and an empty queue exactly when the limit is bounded
(line 46); the initializer body runs synchronously (its `schedule`
calls take effect immediately), a synchronous throw being captured by
the `try`/`catch` into a rejected `initPromise` (lines 115-134); finally
the initializer reaction is enqueued by `then(initPromise, ...)`
(lines 136-140). -/
def startEngine (mc : Conc) (init : Task) (opts : Option OptsObj) : EngineState :=
  let s0 : EngineState :=
    { errors := []
      active := 1
      queue := if mc = .unbounded then none else some []
      initResult := .undefined
      opts := opts
      settled := none
      log := []
      jobs := [] }
  let p := runTaskBody mc s0 init
  { p.1 with jobs := p.1.jobs ++ [.reaction true p.2] }

/-- `maxConcurrency` validation (`src/polyfill.js` lines 28-36): default
to infinity when absent, truncate with `Math.floor`, and require
`maxConcurrency >= 1` (which `NaN` fails); on failure throw a
`RangeError`. -/
def computeMaxConcurrency (opt : Option JNum) : Except Val Conc :=
  let mcNum := match opt with
    | none => JNum.posInf
    | some x => jsFloor x
  if jsGe1 mcNum then
    .ok (match mcNum with
         | .fin q => .bounded ⌊q⌋.toNat
         | _ => .unbounded)
  else .error .rangeError

/-- The `maxConcurrency` option as the source reads it:
`opts != null ? opts.maxConcurrency : null` (`src/polyfill.js`
line 28). -/
def optMC (opts : Option OptsObj) : Option JNum :=
  match opts with
  | none => none
  | some o => o.maxConcurrency

/-- `Promise.scheduleAndRun` (`src/polyfill.js` lines 19-143): validate
`maxConcurrency` synchronously — before the initializer is invoked —
and on success build the running instance. -/
def scheduleAndRun (init : Task) (opts : Option OptsObj) :
    Except Val EngineState :=
  match computeMaxConcurrency (optMC opts) with
  | .error e => .error e
  | .ok mc => .ok (startEngine mc init opts)

/-- Drain `fuel` microtasks from the queue. -/
def runN (mc : Conc) : Nat → EngineState → EngineState
  | 0, s => s
  | n + 1, s => runN mc n (stepJob mc s)

/-!
Embedding of the `schedule` closure and circular buffer of
`src/unnamed/part_001` (lines 76-82 and 118-135 and 162-210).  That
implementation stores every scheduled task as three consecutive buffer
cells — the task function, the `resolve` of its per-task handle promise,
and the `reject` — in a growable power-of-two circular buffer.  Handle
promises are modelled by consecutive numeric ids (`nextId`). -/

/-- One cell of the part_001 circular buffer: a hole (`undefined`), a
task function, or the `resolve`/`reject` function of a handle promise
(identified by the handle id). -/
inductive Cell where
  | undefined
  | taskCell (tid : Nat)
  | resCell (hid : Nat)
  | rejCell (hid : Nat)
  deriving DecidableEq

/-- The JS 32-bit bitwise AND `x & y`, in the only operand shapes
part_001 produces: the right operand is `queue.length - 1`, i.e. either
`-1` (empty buffer; `x & -1 = x` in two's complement) or a power-of-two
mask `2^k - 1` (for which two's-complement AND is exactly the
nonnegative remainder `x mod 2^k`, also for negative `x`).  All
quantities involved are far below `2^31`, so 32-bit truncation never
intervenes. -/
def jsAnd (x y : Int) : Int :=
  if y = -1 then x else x.emod (y + 1)

/-- `Array.prototype.copyWithin(target, lo, hi)` as the source's
fallback spells it out (`src/unnamed/part_001` lines 40-42):
`while (lo < hi) this[target++] = this[lo++]`, by fuel `hi - lo`. -/
def copyCells : List Cell → Nat → Nat → Nat → List Cell
  | cells, _, _, 0 => cells
  | cells, target, lo, n + 1 =>
    copyCells (cells.set target (cells.getD lo .undefined)) (target + 1) (lo + 1) n

/-- `fill(void 0, lo, hi)`: overwrite the index range `[lo, hi)` with
`undefined`. -/
def fillUndef (cells : List Cell) (lo hi : Nat) : List Cell :=
  cells.mapIdx fun i c => if lo ≤ i && i < hi then Cell.undefined else c

/-- The closure state of one part_001 instance, restricted to the parts
its `schedule`/`settleTask` queue code touches: the buffer (`cells` =
`queue`), `queueHead`, `queueTail`, `active`, and a counter generating
handle-promise ids. -/
structure P1State where
  cells : List Cell
  queueHead : Int
  queueTail : Int
  active : Int
  nextId : Nat
  deriving DecidableEq

/-- The buffer write sequence of part_001's `schedule`
(`src/unnamed/part_001` lines 177-202), translated faithfully:

    var length = queueRef.length
    var mask = length - 1
    ...
    if (((tail - head) & mask) < 3) {
        queueRef.fill(void 0, length,
            queueRef.length = length === 0 ? 16 : length << 1)
        if (tail < head) {
            queueRef.copyWithin(length, 0, tail)
            queueRef.fill(void 0, 0, tail)
            tail += length
        }
    }
    queueRef[tail] = task
    queueRef[(tail + 1) & mask] = resolve
    queueRef[(tail + 2) & mask] = reject
    queueTail = (tail + 3) & mask

Note that `mask` is computed from the length *before* any growth and is
not recomputed afterwards, and that the growth condition compares the
*used* cell count `(tail - head) & mask` — not the free count — against
3, although the comment above it reads "If we have less than 3
available entries, grow the buffer". -/
def p1Push (s : P1State) (tid hid : Nat) : P1State :=
  let length : Nat := s.cells.length
  let mask : Int := (length : Int) - 1
  let head := s.queueHead
  let tail := s.queueTail
  let grown : List Cell × Int :=
    if jsAnd (tail - head) mask < 3 then
      let newLen : Nat := if length = 0 then 16 else length * 2
      let extended := s.cells ++ List.replicate (newLen - length) Cell.undefined
      if tail < head then
        (fillUndef (copyCells extended length 0 tail.toNat) 0 tail.toNat,
         tail + length)
      else (extended, tail)
    else (s.cells, tail)
  let cells1 := grown.1.set grown.2.toNat (Cell.taskCell tid)
  let cells2 := cells1.set (jsAnd (grown.2 + 1) mask).toNat (Cell.resCell hid)
  let cells3 := cells2.set (jsAnd (grown.2 + 2) mask).toNat (Cell.rejCell hid)
  { s with cells := cells3, queueTail := jsAnd (grown.2 + 3) mask }

/-- The two failure modes of part_001's `schedule` closure:
`locked` models `throw new Error("Scheduler locked!")` (line 169), and
`refError` models the `ReferenceError` raised at line 206 by
`scheduleTask(settleTask)` — no `scheduleTask` is defined anywhere in
`src/unnamed/part_001` (only `scheduleJob` is). -/
inductive P1Err where
  | locked
  | refError
  deriving DecidableEq

/-- Part_001's `schedule` closure (`src/unnamed/part_001` lines
163-209): throw "Scheduler locked!" when `active === 0`; otherwise
create the handle promise, push task/resolve/reject into the buffer,
and, when a slot is free (`current < maxConcurrency`), increment
`active` and call `scheduleTask(settleTask)` — which raises a
`ReferenceError` since `scheduleTask` is not defined, propagating out of
`schedule` after the state mutations; on the queued path the handle
promise is returned.  The result pairs the mutated state with either
the returned handle id or the raised error. -/
def p1Schedule (mc : Conc) (s : P1State) (tid : Nat) :
    P1State × Except P1Err Nat :=
  let current := s.active
  if current = 0 then (s, .error .locked)
  else
    let hid := s.nextId
    let s1 := p1Push { s with nextId := hid + 1 } tid hid
    if Conc.isBelow current mc then
      ({ s1 with active := current + 1 }, .error .refError)
    else (s1, .ok hid)

/-- The dequeue step of part_001's `settleTask`
(`src/unnamed/part_001` lines 118-127): when the queue is non-empty
(`head !== tail`), read the three cells at the head — expected to be
the oldest pending task with its handle's `resolve`/`reject` — and
advance `queueHead` by three, masked.  (Here `mask` *is* recomputed
from the current buffer length.) -/
def p1PopHead (s : P1State) : Option (Cell × Cell × Cell × P1State) :=
  if s.queueHead = s.queueTail then none
  else
    let mask : Int := (s.cells.length : Int) - 1
    let head := s.queueHead
    let next := s.cells.getD head.toNat .undefined
    let res := s.cells.getD (jsAnd (head + 1) mask).toNat .undefined
    let rej := s.cells.getD (jsAnd (head + 2) mask).toNat .undefined
    some (next, res, rej, { s with queueHead := jsAnd (head + 3) mask })

/-- A fresh part_001 instance right after `P.scheduleAndRun` set up its
closure variables (lines 76-81): empty buffer, `queueHead = queueTail =
0`, `active = 1`. -/
def p1Fresh : P1State :=
  { cells := [], queueHead := 0, queueTail := 0, active := 1, nextId := 0 }

/-- Schedule a run of consecutively numbered tasks (task ids
`0, 1, ...`) through part_001's `schedule` closure, ignoring the
returned handles/errors (the state mutations persist either way, as
they do in the source when the caller catches the throw). -/
def p1ScheduleSeq (mc : Conc) : P1State → Nat → Nat → P1State
  | s, _, 0 => s
  | s, tid, n + 1 => p1ScheduleSeq mc (p1Schedule mc s tid).1 (tid + 1) n

/-!
Ghost-trace extraction and the run invariant of the `src/polyfill.js`
model.  `capturedOf` reads the captured errors out of the trace (in
capture = settlement order), `initSetsOf`/`initValOf` read the assigned
initializer result, and `finalOutcome` is the outcome `settleTask`
produces from them. -/

/-- The errors captured so far, in capture order, as read off the ghost
trace. -/
def capturedOf (log : List Event) : List Val :=
  log.filterMap fun e =>
    match e with
    | .captured v => some v
    | _ => none

/-- The `initSet` assignments recorded in the trace. -/
def initSetsOf (log : List Event) : List Val :=
  log.filterMap fun e =>
    match e with
    | .initSet v => some v
    | _ => none

/-- The initializer result as recorded in the trace (`undefined` when
the initializer has not resolved). -/
def initValOf (log : List Event) : Val :=
  (initSetsOf log).headD .undefined

/-- The outcome `settleTask` produces when the live-unit count reaches
zero, as a function of the trace: the initializer's value when no error
was captured, else the aggregate of all captured errors in capture
order. -/
def finalOutcome (log : List Event) : Outcome :=
  if capturedOf log = [] then .resolved (initValOf log) else .rejected (capturedOf log)

@[simp]
theorem capturedOf_append (l₁ l₂ : List Event) :
    capturedOf (l₁ ++ l₂) = capturedOf l₁ ++ capturedOf l₂ :=
  List.filterMap_append _ _ _

@[simp]
theorem initSetsOf_append (l₁ l₂ : List Event) :
    initSetsOf (l₁ ++ l₂) = initSetsOf l₁ ++ initSetsOf l₂ :=
  List.filterMap_append _ _ _

@[simp]
theorem capturedOf_nil : capturedOf [] = [] := rfl

@[simp]
theorem capturedOf_cons_bodyRun (l : List Event) :
    capturedOf (Event.bodyRun :: l) = capturedOf l := rfl

@[simp]
theorem capturedOf_cons_resolvedHook (v : Val) (l : List Event) :
    capturedOf (Event.resolvedHook v :: l) = capturedOf l := rfl

@[simp]
theorem capturedOf_cons_rejectedHook (e : Val) (l : List Event) :
    capturedOf (Event.rejectedHook e :: l) = capturedOf l := rfl

@[simp]
theorem capturedOf_cons_captured (e : Val) (l : List Event) :
    capturedOf (Event.captured e :: l) = e :: capturedOf l := rfl

@[simp]
theorem capturedOf_cons_initSet (v : Val) (l : List Event) :
    capturedOf (Event.initSet v :: l) = capturedOf l := rfl

@[simp]
theorem initSetsOf_nil : initSetsOf [] = [] := rfl

@[simp]
theorem initSetsOf_cons_bodyRun (l : List Event) :
    initSetsOf (Event.bodyRun :: l) = initSetsOf l := rfl

@[simp]
theorem initSetsOf_cons_resolvedHook (v : Val) (l : List Event) :
    initSetsOf (Event.resolvedHook v :: l) = initSetsOf l := rfl

@[simp]
theorem initSetsOf_cons_rejectedHook (e : Val) (l : List Event) :
    initSetsOf (Event.rejectedHook e :: l) = initSetsOf l := rfl

@[simp]
theorem initSetsOf_cons_captured (e : Val) (l : List Event) :
    initSetsOf (Event.captured e :: l) = initSetsOf l := rfl

@[simp]
theorem initSetsOf_cons_initSet (v : Val) (l : List Event) :
    initSetsOf (Event.initSet v :: l) = v :: initSetsOf l := rfl

/-- What a `schedule` call (and hence a whole body execution) can do to
the engine state: it leaves `errors`, the trace, `settled`, `opts` and
`initResult` alone, and only appends deferred `runTask` jobs, raising
`active` by exactly the number of jobs it appends. -/
structure Ext (s s' : EngineState) : Prop where
  errors : s'.errors = s.errors
  log : s'.log = s.log
  settled : s'.settled = s.settled
  opts : s'.opts = s.opts
  initResult : s'.initResult = s.initResult
  jobs : ∃ ex : List Job, s'.jobs = s.jobs ++ ex ∧
    ex.countP Job.isInitReaction = 0 ∧ s'.active = s.active + ex.length

theorem Ext.refl (s : EngineState) : Ext s s :=
  ⟨rfl, rfl, rfl, rfl, rfl, [], by simp, by simp, by simp⟩

theorem Ext.trans {s s' s'' : EngineState} (h : Ext s s') (h' : Ext s' s'') :
    Ext s s'' := by
  obtain ⟨e1, l1, d1, o1, i1, ex1, j1, c1, a1⟩ := h
  obtain ⟨e2, l2, d2, o2, i2, ex2, j2, c2, a2⟩ := h'
  refine ⟨e2.trans e1, l2.trans l1, d2.trans d1, o2.trans o1, i2.trans i1,
    ex1 ++ ex2, ?_, ?_, ?_⟩
  · rw [j2, j1, List.append_assoc]
  · rw [List.countP_append, c1, c2]
  · rw [a2, a1, List.length_append]; push_cast; ring

theorem scheduleCall_ext (mc : Conc) (s : EngineState) (t : Task) :
    Ext s (scheduleCall mc s t).1 := by
  unfold scheduleCall
  dsimp only
  split
  · exact Ext.refl s
  · split
    · exact ⟨rfl, rfl, rfl, rfl, rfl, [.runTask t], by simp [scheduleTask],
        by simp [Job.isInitReaction], by simp [scheduleTask]⟩
    · exact ⟨rfl, rfl, rfl, rfl, rfl, [], by simp, by simp, by simp⟩

theorem runCalls_ext (mc : Conc) (ts : List Task) :
    ∀ s : EngineState, Ext s (runCalls mc s ts) := by
  induction ts with
  | nil => intro s; exact Ext.refl s
  | cons t ts ih =>
    intro s
    exact Ext.trans (scheduleCall_ext mc s t) (ih (scheduleCall mc s t).1)

theorem runTaskBody_ext (mc : Conc) (s : EngineState) (t : Task) :
    Ext { s with log := s.log ++ [.bodyRun] } (runTaskBody mc s t).1 := by
  cases t with
  | mk subs result => exact runCalls_ext mc subs _

theorem runTaskBody_snd (mc : Conc) (s : EngineState) (subs : List Task)
    (r : Except Val Val) : (runTaskBody mc s (.mk subs r)).2 = r := rfl

/-- The run invariant of the `src/polyfill.js` model: before settlement
every live unit is represented by exactly one pending microtask
(`activeJobs`, `live`), the `errors` array and `initResult` agree with
the ghost trace (`errorsLog`, `initLog`), the initializer reaction fires
at most once (`initAcct`), and once settled the state is final with the
outcome determined by the trace (`settledInv`). -/
structure Good (s : EngineState) : Prop where
  activeJobs : s.active = s.jobs.length
  live : s.settled = none → s.jobs ≠ []
  errorsLog : s.settled = none → s.errors = capturedOf s.log
  initLog : s.settled = none → s.initResult = initValOf s.log
  initAcct : s.settled = none →
    s.jobs.countP Job.isInitReaction + (initSetsOf s.log).length ≤ 1
  settledInv : ∀ o, s.settled = some o →
    s.jobs = [] ∧ s.active = 0 ∧ o = finalOutcome s.log

/-- `settleTask` re-establishes the invariant when run on a state whose
just-settled unit's reaction job has been consumed but whose `active`
count has not yet been decremented. -/
theorem settleTask_good (s : EngineState)
    (hA : s.active = s.jobs.length + 1)
    (hS : s.settled = none)
    (hE : s.errors = capturedOf s.log)
    (hI : s.initResult = initValOf s.log)
    (hC : s.jobs.countP Job.isInitReaction + (initSetsOf s.log).length ≤ 1) :
    Good (settleTask s) := by
  unfold settleTask
  split
  · rename_i next rest hq
    refine ⟨?_, ?_, ?_, ?_, ?_, ?_⟩
    · simp [scheduleTask]; omega
    · intro _; simp [scheduleTask]
    · intro _; simpa [scheduleTask] using hE
    · intro _; simpa [scheduleTask] using hI
    · intro _
      simpa [scheduleTask, Job.isInitReaction] using hC
    · intro o h; simp [scheduleTask, hS] at h
  · dsimp only
    split
    · rename_i hz
      have hlen : (s.jobs.length : Int) = 0 := by omega
      have hnil : s.jobs = [] := by
        cases hj : s.jobs with
        | nil => rfl
        | cons a l => exfalso; rw [hj] at hlen; simp at hlen; omega
      refine ⟨?_, ?_, ?_, ?_, ?_, ?_⟩
      · simp [hnil]; omega
      · intro h; simp at h
      · intro h; simp at h
      · intro h; simp at h
      · intro h; simp at h
      · intro o h
        simp only [Option.some.injEq] at h
        refine ⟨hnil, by simpa using hz, ?_⟩
        rw [← h, finalOutcome, hE, hI]
        by_cases hcap : capturedOf s.log = []
        · simp [hcap]
        · simp [hcap, List.isEmpty_iff]
    · rename_i hz
      refine ⟨?_, ?_, ?_, ?_, ?_, ?_⟩
      · simp; omega
      · intro _ hnil
        rw [hnil] at hA
        simp at hA
        omega
      · intro _; simpa using hE
      · intro _; simpa using hI
      · intro _; simpa using hC
      · intro o h; simp [hS] at h

/-- `handleResolution` re-establishes the invariant from the same
pre-state conditions (the hook, if any, only appends matching trace
events and error captures). -/
theorem handleResolution_good (s : EngineState) (v : Val)
    (hA : s.active = s.jobs.length + 1)
    (hS : s.settled = none)
    (hE : s.errors = capturedOf s.log)
    (hI : s.initResult = initValOf s.log)
    (hC : s.jobs.countP Job.isInitReaction + (initSetsOf s.log).length ≤ 1) :
    Good (handleResolution s v) := by
  unfold handleResolution
  dsimp only
  split
  · exact settleTask_good s hA hS hE hI hC
  · split
    · exact settleTask_good s hA hS hE hI hC
    · split
      · refine settleTask_good _ ?_ ?_ ?_ ?_ ?_
        · simpa using hA
        · simpa using hS
        · simpa using hE
        · simpa [initValOf] using hI
        · simpa using hC
      · refine settleTask_good _ ?_ ?_ ?_ ?_ ?_
        · simpa [pushError] using hA
        · simpa [pushError] using hS
        · simp [pushError, hE]
        · simpa [pushError, initValOf] using hI
        · simpa [pushError] using hC

/-- `handleRejection` re-establishes the invariant from the same
pre-state conditions (each of its three paths pushes exactly one error,
mirrored in the trace). -/
theorem handleRejection_good (s : EngineState) (v : Val)
    (hA : s.active = s.jobs.length + 1)
    (hS : s.settled = none)
    (hE : s.errors = capturedOf s.log)
    (hI : s.initResult = initValOf s.log)
    (hC : s.jobs.countP Job.isInitReaction + (initSetsOf s.log).length ≤ 1) :
    Good (handleRejection s v) := by
  unfold handleRejection
  dsimp only
  have push : ∀ e : Val, Good (settleTask (pushError s e)) := by
    intro e
    refine settleTask_good _ (by simpa [pushError] using hA)
      (by simpa [pushError] using hS) ?_ ?_ ?_ <;>
      simp [pushError, hE, hI, initValOf, hC]
  split
  · exact push v
  · rename_i o _
    match o.onRejected with
    | none => exact push .typeError
    | some _ => exact push v

/-- A state with no pending microtasks is a fixed point of the job
loop. -/
theorem stepJob_fix (mc : Conc) (s : EngineState) (h : s.jobs = []) :
    stepJob mc s = s := by
  unfold stepJob
  rw [h]

/-- A settled state never changes again. -/
theorem runN_fix (mc : Conc) (fuel : Nat) (s : EngineState) (h : s.jobs = []) :
    runN mc fuel s = s := by
  induction fuel with
  | zero => rfl
  | succ n ih => rw [runN, stepJob_fix mc s h, ih]

theorem stepJob_runTask (mc : Conc) (s : EngineState) (t : Task)
    (rest : List Job) (h : s.jobs = Job.runTask t :: rest) :
    stepJob mc s =
      { (runTaskBody mc { s with jobs := rest } t).1 with
          jobs := (runTaskBody mc { s with jobs := rest } t).1.jobs ++
            [.reaction false (runTaskBody mc { s with jobs := rest } t).2] } := by
  obtain ⟨e, a, q, i, o, d, l, jobs⟩ := s
  dsimp only at h
  subst h
  rfl

theorem stepJob_reaction_ok_false (mc : Conc) (s : EngineState) (v : Val)
    (rest : List Job) (h : s.jobs = Job.reaction false (.ok v) :: rest) :
    stepJob mc s = handleResolution { s with jobs := rest } v := by
  obtain ⟨e, a, q, i, o, d, l, jobs⟩ := s
  dsimp only at h
  subst h
  rfl

theorem stepJob_reaction_ok_true (mc : Conc) (s : EngineState) (v : Val)
    (rest : List Job) (h : s.jobs = Job.reaction true (.ok v) :: rest) :
    stepJob mc s = handleResolution
      { s with jobs := rest, initResult := v, log := s.log ++ [.initSet v] } v := by
  obtain ⟨e, a, q, i, o, d, l, jobs⟩ := s
  dsimp only at h
  subst h
  rfl

theorem stepJob_reaction_err (mc : Conc) (s : EngineState) (isInit : Bool)
    (err : Val) (rest : List Job)
    (h : s.jobs = Job.reaction isInit (.error err) :: rest) :
    stepJob mc s = handleRejection { s with jobs := rest } err := by
  obtain ⟨e, a, q, i, o, d, l, jobs⟩ := s
  dsimp only at h
  subst h
  cases isInit <;> rfl

/-- One step of the job loop preserves the run invariant. -/
theorem stepJob_good (mc : Conc) (s : EngineState) (h : Good s) :
    Good (stepJob mc s) := by
  obtain ⟨hA, hL, hE, hI, hC, hD⟩ := h
  rcases hj : s.jobs with _ | ⟨j, rest⟩
  · rw [stepJob_fix mc s hj]; exact ⟨hA, hL, hE, hI, hC, hD⟩
  have hS : s.settled = none := by
    cases hq : s.settled with
    | none => rfl
    | some o =>
      exfalso
      have := (hD o hq).1
      rw [hj] at this
      exact List.cons_ne_nil _ _ this
  have hA0 : s.active = (rest.length : Int) + 1 := by
    rw [hA, hj]; push_cast [List.length_cons]; ring
  have hE0 := hE hS
  have hI0 := hI hS
  have hC0 := hC hS
  rw [hj] at hC0
  rcases j with t | ⟨isInit, r⟩
  · rw [stepJob_runTask mc s t rest hj]
    have hext := runTaskBody_ext mc { s with jobs := rest } t
    obtain ⟨he, hl, hd, ho, hi, ex, hjj, hcnt, hact⟩ := hext
    dsimp only at he hl hd ho hi hjj hact
    refine ⟨?_, ?_, ?_, ?_, ?_, ?_⟩
    · dsimp only
      rw [hact, hjj]
      simp only [List.length_append, List.length_cons]
      rw [hA0]; push_cast; ring_nf; simp
    · intro _; simp [hjj]
    · intro _; simp only [he, hl]; simpa using hE0
    · intro _; simp only [hi, hl]; simpa [initValOf] using hI0
    · intro _
      simp only [hjj, hl]
      simp only [List.countP_append, List.countP_cons, hcnt, Job.isInitReaction,
        initSetsOf_append]
      simp only [List.countP_cons, Job.isInitReaction] at hC0
      simpa using by omega
    · intro o hsome
      exfalso
      rw [hd, hS] at hsome
      exact Option.noConfusion hsome
  · rcases r with err | v
    · rw [stepJob_reaction_err mc s isInit err rest hj]
      refine handleRejection_good _ err ?_ (by simpa using hS)
        (by simpa using hE0) (by simpa using hI0) ?_
      · simpa using hA0
      · simp [List.countP_cons, Job.isInitReaction] at hC0
        cases isInit <;> (simp_all; try omega)
    · cases isInit
      · rw [stepJob_reaction_ok_false mc s v rest hj]
        refine handleResolution_good _ v ?_ (by simpa using hS) (by simpa using hE0)
          (by simpa using hI0) ?_
        · simpa using hA0
        · simp [List.countP_cons, Job.isInitReaction] at hC0
          simpa using by omega
      · rw [stepJob_reaction_ok_true mc s v rest hj]
        have hcnt1 : (initSetsOf s.log).length = 0 ∧
            rest.countP Job.isInitReaction = 0 := by
          simp [List.countP_cons, Job.isInitReaction] at hC0
          omega
        have hnil : initSetsOf s.log = [] := List.length_eq_zero.mp hcnt1.1
        refine handleResolution_good _ v ?_ (by simpa using hS) ?_ ?_ ?_
        · simpa using hA0
        · simpa using hE0
        · simp [initValOf, hnil]
        · simp [hnil, hcnt1.2]

/-- The state `P.scheduleAndRun` builds before the first microtask runs
satisfies the run invariant. -/
theorem startEngine_good (mc : Conc) (init : Task) (opts : Option OptsObj) :
    Good (startEngine mc init opts) := by
  unfold startEngine
  dsimp only
  have hext := runTaskBody_ext mc
    { errors := [], active := 1,
      queue := if mc = Conc.unbounded then none else some [],
      initResult := .undefined, opts := opts, settled := none, log := [],
      jobs := [] } init
  obtain ⟨he, hl, hd, ho, hi, ex, hjj, hcnt, hact⟩ := hext
  dsimp only at he hl hd ho hi hjj hact
  refine ⟨?_, ?_, ?_, ?_, ?_, ?_⟩
  · dsimp only
    rw [hact, hjj]
    simp only [List.nil_append, List.length_append, List.length_cons]
    push_cast
    ring_nf
    simp
  · intro _; simp [hjj]
  · intro _; simp [he, hl]
  · intro _; simp [hi, hl, initValOf]
  · intro _
    simp [hjj, hl, List.countP_append, List.countP_cons, hcnt, Job.isInitReaction]
  · intro o hsome
    exfalso
    rw [hd] at hsome
    exact Option.noConfusion hsome

/-- The run invariant holds after any number of steps. -/
theorem runN_good (mc : Conc) (fuel : Nat) (s : EngineState) (h : Good s) :
    Good (runN mc fuel s) := by
  induction fuel generalizing s with
  | zero => exact h
  | succ n ih => exact ih _ (stepJob_good mc s h)

/-- `schedule` keeps `active` under a bounded limit: it only increments
when `current < maxConcurrency`. -/
theorem scheduleCall_active_le (m : Nat) (s : EngineState) (t : Task)
    (h : s.active ≤ (m : Int)) :
    ((scheduleCall (.bounded m) s t).1).active ≤ (m : Int) := by
  unfold scheduleCall
  dsimp only
  split
  · exact h
  · split
    · rename_i hb
      simp only [Conc.isBelow, decide_eq_true_eq] at hb
      simp only [scheduleTask]
      omega
    · exact h

theorem runCalls_active_le (m : Nat) (ts : List Task) :
    ∀ s : EngineState, s.active ≤ (m : Int) →
      (runCalls (.bounded m) s ts).active ≤ (m : Int) := by
  induction ts with
  | nil => intro s h; exact h
  | cons t ts ih =>
    intro s h
    exact ih _ (scheduleCall_active_le m s t h)

theorem runTaskBody_active_le (m : Nat) (s : EngineState) (t : Task)
    (h : s.active ≤ (m : Int)) :
    ((runTaskBody (.bounded m) s t).1).active ≤ (m : Int) := by
  cases t with
  | mk subs result =>
    exact runCalls_active_le m subs _ (by simpa using h)

theorem settleTask_active_le (m : Nat) (s : EngineState)
    (h : s.active ≤ (m : Int)) :
    (settleTask s).active ≤ (m : Int) := by
  unfold settleTask
  split
  · simpa [scheduleTask] using h
  · dsimp only
    split
    · simp; omega
    · simp; omega

theorem handleResolution_active_le (m : Nat) (s : EngineState) (v : Val)
    (h : s.active ≤ (m : Int)) :
    (handleResolution s v).active ≤ (m : Int) := by
  unfold handleResolution
  dsimp only
  split
  · exact settleTask_active_le m s h
  · split
    · exact settleTask_active_le m s h
    · split
      · exact settleTask_active_le m _ (by simpa using h)
      · exact settleTask_active_le m _ (by simpa [pushError] using h)

theorem handleRejection_active_le (m : Nat) (s : EngineState) (v : Val)
    (h : s.active ≤ (m : Int)) :
    (handleRejection s v).active ≤ (m : Int) := by
  unfold handleRejection
  dsimp only
  split
  · exact settleTask_active_le m _ (by simpa [pushError] using h)
  · split
    · exact settleTask_active_le m _ (by simpa [pushError] using h)
    · exact settleTask_active_le m _ (by simpa [pushError] using h)

theorem stepJob_active_le (m : Nat) (s : EngineState)
    (h : s.active ≤ (m : Int)) :
    (stepJob (.bounded m) s).active ≤ (m : Int) := by
  rcases hj : s.jobs with _ | ⟨j, rest⟩
  · rw [stepJob_fix _ s hj]; exact h
  · rcases j with t | ⟨isInit, r⟩
    · rw [stepJob_runTask _ s t rest hj]
      have := runTaskBody_active_le m { s with jobs := rest } t (by simpa using h)
      simpa using this
    · rcases r with err | v
      · rw [stepJob_reaction_err _ s isInit err rest hj]
        exact handleRejection_active_le m _ err (by simpa using h)
      · cases isInit
        · rw [stepJob_reaction_ok_false _ s v rest hj]
          exact handleResolution_active_le m _ v (by simpa using h)
        · rw [stepJob_reaction_ok_true _ s v rest hj]
          exact handleResolution_active_le m _ v (by simpa using h)

theorem runN_active_le (m : Nat) (fuel : Nat) (s : EngineState)
    (h : s.active ≤ (m : Int)) :
    (runN (.bounded m) fuel s).active ≤ (m : Int) := by
  induction fuel generalizing s with
  | zero => exact h
  | succ n ih => exact ih _ (stepJob_active_le m s h)

theorem startEngine_active_le (m : Nat) (init : Task) (opts : Option OptsObj)
    (hm : 1 ≤ m) :
    (startEngine (.bounded m) init opts).active ≤ (m : Int) := by
  unfold startEngine
  dsimp only
  have h1 : ((1 : Int)) ≤ (m : Int) := by exact_mod_cast hm
  have := runTaskBody_active_le m
    { errors := [], active := 1,
      queue := if Conc.bounded m = Conc.unbounded then none else some [],
      initResult := .undefined, opts := opts, settled := none, log := [],
      jobs := [] } init (by simpa using h1)
  simpa using this

/-!
Concrete scheduler runs used by the claim theorems below. -/

/-- A task body that throws `"x"` immediately. -/
def demoFailingTask : Task := .mk [] (.error (.str "x"))

/-- An initializer that schedules nothing and returns `5`. -/
def demoInit0 : Task := .mk [] (.ok (.num 5))

/-- An initializer that schedules one failing task and returns `0`. -/
def demoInit1 : Task := .mk [demoFailingTask] (.ok (.num 0))

/-- An initializer that schedules one task returning `3` and itself
returns `7`. -/
def demoInit2 : Task := .mk [Task.mk [] (.ok (.num 3))] (.ok (.num 7))

/-- A hook that always returns normally (for `onRejected` this is a
suppressing hook: per the spec it should swallow the error). -/
def demoQuietHook : Hook := fun _ => .ok ()

/-- Opts with only a (suppressing) `onRejected` hook. -/
def suppressingOpts : OptsObj :=
  { maxConcurrency := none, onResolved := none, onRejected := some demoQuietHook }

/-- Opts object present but with neither hook supplied. -/
def hookFreeOpts : OptsObj :=
  { maxConcurrency := none, onResolved := none, onRejected := none }

/-- Opts with only an `onResolved` hook. -/
def resolvedHookOpts : OptsObj :=
  { maxConcurrency := none, onResolved := some demoQuietHook, onRejected := none }

/-- The (reachable) state of a reference-implementation instance after
its trivial run has fully settled: `active = 0`, the scheduler is
locked. -/
def demoLockedState : EngineState :=
  runN .unbounded 1 (startEngine .unbounded demoInit0 none)

/-- The part_001 buffer state after one settled run is not needed: a
fresh instance with `active` forced to 0 models `schedule` being called
after full settlement. -/
def p1LockedState : P1State := { p1Fresh with active := 0 }

/-- The part_001 buffer after its `schedule` closure has been entered
six times in a row under `maxConcurrency = 1` (all six pushes take the
queued path, so no `scheduleTask` crash intervenes). -/
def p1SixPushes : P1State := p1ScheduleSeq (.bounded 1) p1Fresh 0 6

/-!
The claim theorems. -/

/-- C1.  The claim says a supplied `onRejected` hook is invoked exactly
once per failing task, a normal return suppresses the error, a throw
substitutes it, and the no-hook default records the task's original
error.  The code does the opposite, because the null test at
`src/polyfill.js` line 67 (`src/unnamed/part_001` line 103) is
inverted: (a) with a suppressing hook supplied and one failing task, the
hook is never invoked (the trace contains no `rejectedHook` event) and
the error `"x"` is still captured, so the completion rejects; (b) with
an `opts` object that has no `onRejected`, the source calls the null
handler, and the resulting `TypeError` — not the task's error `"x"` —
is recorded; (c) only with `opts` absent altogether is the original
error recorded as the claim describes. -/
theorem claim1_rejection_hook_divergence :
    ((runN .unbounded 3 (startEngine .unbounded demoInit1 (some suppressingOpts))).settled
      = some (.rejected [.str "x"])
    ∧ (runN .unbounded 3 (startEngine .unbounded demoInit1 (some suppressingOpts))).log
      = [.bodyRun, .bodyRun, .initSet (.num 0), .captured (.str "x")])
    ∧ (runN .unbounded 3 (startEngine .unbounded demoInit1 (some hookFreeOpts))).settled
      = some (.rejected [.typeError])
    ∧ (runN .unbounded 3 (startEngine .unbounded demoInit1 none)).settled
      = some (.rejected [.str "x"]) :=
  ⟨⟨rfl, rfl⟩, rfl, rfl⟩

/-- C2.  The completion promise settles exactly once, exactly when the
live-unit count reaches 0, and its outcome is determined by the run:
the aggregate of the captured errors in capture (settlement) order when
at least one error was captured, else exactly the value the initializer
resolved with.  Settlement is stable: once `settled = some o`, every
further step leaves it (`runN mc extra`) unchanged. -/
theorem claim2_completion_settlement (mc : Conc) (init : Task)
    (opts : Option OptsObj) (fuel : Nat) :
    ((runN mc fuel (startEngine mc init opts)).settled.isSome ↔
      (runN mc fuel (startEngine mc init opts)).active = 0)
    ∧ ∀ o, (runN mc fuel (startEngine mc init opts)).settled = some o →
        o = finalOutcome (runN mc fuel (startEngine mc init opts)).log
        ∧ ∀ extra,
            (runN mc extra (runN mc fuel (startEngine mc init opts))).settled
              = some o := by
  have hg : Good (runN mc fuel (startEngine mc init opts)) :=
    runN_good mc fuel _ (startEngine_good mc init opts)
  obtain ⟨hA, hL, hE, hI, hC, hD⟩ := hg
  refine ⟨⟨?_, ?_⟩, ?_⟩
  · intro hs
    rcases ho : (runN mc fuel (startEngine mc init opts)).settled with _ | o
    · rw [ho] at hs; simp at hs
    · exact (hD o ho).2.1
  · intro ha
    rcases ho : (runN mc fuel (startEngine mc init opts)).settled with _ | o
    · exfalso
      have hne := hL ho
      rcases hjj : (runN mc fuel (startEngine mc init opts)).jobs with _ | ⟨a, l⟩
      · exact hne hjj
      · rw [hA, hjj] at ha
        simp at ha
        omega
    · simp [ho]
  · intro o ho
    refine ⟨(hD o ho).2.2, ?_⟩
    intro extra
    rw [runN_fix mc extra _ (hD o ho).1, ho]

/-- Witness for C2 at a concrete run: the trivial initializer returning
`5` settles after one microtask with `resolved 5`, which equals the
trace's `finalOutcome`, and stays settled. -/
theorem claim2_completion_settlement_witness :
    (Outcome.resolved (Val.num 5)
        = finalOutcome (runN .unbounded 1 (startEngine .unbounded demoInit0 none)).log)
    ∧ (runN .unbounded 2
        (runN .unbounded 1 (startEngine .unbounded demoInit0 none))).settled
      = some (.resolved (.num 5))
    ∧ ((runN .unbounded 1 (startEngine .unbounded demoInit0 none)).settled.isSome ↔
        (runN .unbounded 1 (startEngine .unbounded demoInit0 none)).active = 0) :=
  ⟨((claim2_completion_settlement .unbounded demoInit0 none 1).2 _ rfl).1,
   ((claim2_completion_settlement .unbounded demoInit0 none 1).2 _ rfl).2 2,
   (claim2_completion_settlement .unbounded demoInit0 none 1).1⟩

/-- C3.  The claim (and the repository's own README: the initializer
"does *not* result in invoking `onResolved` or `onRejected`") says the
hooks are never invoked for the initializer's own settlement.  But both
implementations install `handleResolution`/`handleRejection` as the
initializer promise's reactions (`src/polyfill.js` lines 136-140), so
`onResolved` *is* invoked with the initializer's value: in a run whose
initializer returns `7` and schedules one task returning `3`, the trace
shows `resolvedHook 7` (the initializer — divergence) followed by
`resolvedHook 3` (the task — as the claim describes). -/
theorem claim3_init_hook_divergence :
    (runN .unbounded 4 (startEngine .unbounded demoInit2 (some resolvedHookOpts))).log
      = [.bodyRun, .bodyRun, .initSet (.num 7), .resolvedHook (.num 7),
         .resolvedHook (.num 3)]
    ∧ (runN .unbounded 4
        (startEngine .unbounded demoInit2 (some resolvedHookOpts))).settled
      = some (.resolved (.num 7)) :=
  ⟨rfl, rfl⟩

/-- C4.  The claim says `schedule` returns a per-task completion handle
settling with the task's own outcome.  In the buffer-optimized
implementation (the only one that creates handles), admitting a task
raises a `ReferenceError` — `scheduleTask` is called at
`src/unnamed/part_001` line 206 but is defined nowhere in that file —
so the handle is returned only on the queued path (`maxConcurrency`
reached); and the reference implementation's `schedule` returns a bare
boolean admission flag, not a handle at all
(`src/polyfill.js` lines 126, 130). -/
theorem claim4_schedule_handle_divergence :
    (p1Schedule .unbounded p1Fresh 0).2 = .error .refError
    ∧ (p1Schedule (.bounded 2) p1Fresh 0).2 = .error .refError
    ∧ (p1Schedule (.bounded 1) p1Fresh 0).2 = .ok 0
    ∧ (scheduleCall .unbounded (startEngine .unbounded demoInit0 none)
        demoFailingTask).2 = true :=
  ⟨rfl, rfl, rfl, rfl⟩

/-- C5 counterexample.  The claim says every `schedule` call made after
all live units have settled fails with a "locked" usage error.  In the
reference implementation it does not fail at all: on the fully settled
(hence locked, `active = 0`) state of a finished run, `schedule`
returns normally with `false` and leaves the state untouched
(`src/polyfill.js` line 122: `if (current === 0) return false`). -/
theorem claim5_locked_counterexample :
    scheduleCall .unbounded demoLockedState demoFailingTask
      = (demoLockedState, false)
    ∧ demoLockedState.active = 0
    ∧ demoLockedState.settled = some (.resolved (.num 5)) :=
  ⟨rfl, rfl, rfl⟩

/-- C5 amended.  A `schedule` call made after all live units have
settled (`active = 0`) leaves the already-settled state entirely
unchanged in both implementations; it fails synchronously with the
"Scheduler locked!" usage error in the buffer-optimized implementation,
while the reference implementation instead returns `false` without
raising. -/
theorem claim5_locked_amended (mc mcP : Conc) (s : EngineState) (t : Task)
    (sP : P1State) (tid : Nat) (h : s.active = 0) (hP : sP.active = 0) :
    scheduleCall mc s t = (s, false)
    ∧ p1Schedule mcP sP tid = (sP, .error .locked) := by
  constructor
  · unfold scheduleCall
    simp [h]
  · unfold p1Schedule
    simp [hP]

/-- Witness for the amended C5 at concrete locked states. -/
theorem claim5_locked_amended_witness :
    scheduleCall .unbounded demoLockedState demoFailingTask
      = (demoLockedState, false)
    ∧ p1Schedule .unbounded p1LockedState 0 = (p1LockedState, .error .locked) :=
  claim5_locked_amended .unbounded .unbounded demoLockedState demoFailingTask
    p1LockedState 0 rfl rfl

/-- C6.  `Promise.scheduleAndRun` accepts the `maxConcurrency` option
exactly when it is absent, `Infinity`, or a finite value whose
truncation `Math.floor` is `≥ 1`; every other value (0, negatives,
`NaN`, `-Infinity`) makes it throw the `RangeError` synchronously — the
rejected call returns no scheduler instance at all, so no task (the
initializer included) ever runs. -/
theorem claim6_max_concurrency_validation (init : Task) (opts : Option OptsObj) :
    ((∃ st, scheduleAndRun init opts = .ok st) ↔
      (optMC opts = none ∨ optMC opts = some .posInf ∨
        ∃ q : ℚ, optMC opts = some (.fin q) ∧ 1 ≤ ⌊q⌋))
    ∧ ((scheduleAndRun init opts = .error .rangeError) ↔
      ¬(optMC opts = none ∨ optMC opts = some .posInf ∨
        ∃ q : ℚ, optMC opts = some (.fin q) ∧ 1 ≤ ⌊q⌋)) := by
  unfold scheduleAndRun computeMaxConcurrency
  rcases ho : optMC opts with _ | x
  · simp [jsGe1]
  · rcases x with _ | _ | _ | q
    · simp [jsFloor, jsGe1]
    · simp [jsFloor, jsGe1]
    · simp [jsFloor, jsGe1]
    · simp only [jsFloor, jsGe1]
      by_cases h1 : (1 : ℚ) ≤ (⌊q⌋ : ℚ)
      · have h2 : 1 ≤ ⌊q⌋ := by exact_mod_cast h1
        simp [h1, h2]
      · have h2 : ¬ 1 ≤ ⌊q⌋ := fun hh => h1 (by exact_mod_cast hh)
        simp [h1, h2]

/-- C7.  For every valid bound `m ≥ 1`, at every point of every run the
live-unit count never exceeds `m`; moreover `schedule` changes `active`
only when `active < m` (then by exactly `+1`), and pulling a queued
task into a freed slot (`settleTask` with a non-empty queue) changes
`active` not at all. -/
theorem claim7_concurrency_bound (m : Nat) (init : Task)
    (opts : Option OptsObj) (fuel : Nat) (hm : 1 ≤ m) :
    (runN (.bounded m) fuel (startEngine (.bounded m) init opts)).active ≤ (m : Int)
    ∧ (∀ s : EngineState, ∀ t : Task,
        ((scheduleCall (.bounded m) s t).1).active ≠ s.active →
          s.active < (m : Int)
          ∧ ((scheduleCall (.bounded m) s t).1).active = s.active + 1)
    ∧ (∀ s : EngineState, ∀ next : Task, ∀ rest : List Task,
        s.queue = some (next :: rest) → (settleTask s).active = s.active) := by
  refine ⟨?_, ?_, ?_⟩
  · exact runN_active_le m fuel _ (startEngine_active_le m init opts hm)
  · intro s t hne
    by_cases h0 : s.active = 0
    · exfalso
      apply hne
      simp [scheduleCall, h0]
    · by_cases hb : Conc.isBelow s.active (.bounded m) = true
      · constructor
        · simpa [Conc.isBelow] using hb
        · simp [scheduleCall, h0, hb, scheduleTask]
      · exfalso
        apply hne
        simp [scheduleCall, h0, hb]
  · intro s next rest hq
    unfold settleTask
    rw [hq]
    simp [scheduleTask]

/-- Witness for C7: a bounded-by-2 run of the trivial initializer never
exceeds two live units. -/
theorem claim7_concurrency_bound_witness :
    (runN (.bounded 2) 3 (startEngine (.bounded 2) demoInit0 none)).active
      ≤ ((2 : Nat) : Int) :=
  (claim7_concurrency_bound 2 demoInit0 none 3 (by norm_num)).1

/-- C8.  In the reference implementation, `settleTask` with a non-empty
queue runs exactly the head — the oldest pending task (first
conjunct).  The buffer-optimized implementation violates the claim: its
growth test (`src/unnamed/part_001` line 184) compares the *used* cell
count against 3 where its own comment says "less than 3 *available*
entries", so a sixth consecutively queued task wraps around a full
16-cell buffer and overwrites slots 0-1 — the oldest pending task and
its handle's `resolve`.  After six `schedule` calls under
`maxConcurrency = 1`, the queue head still points at slot 0, but the
cell there is the sixth task's `resolve` function instead of the first
task: the pop that should start the oldest task does not. -/
theorem claim8_fifo_divergence :
    (∀ (errs : List Val) (a : Int) (i : Val) (o : Option OptsObj)
        (d : Option Outcome) (l : List Event) (js : List Job)
        (next : Task) (rest : List Task),
      settleTask ⟨errs, a, some (next :: rest), i, o, d, l, js⟩
        = scheduleTask ⟨errs, a, some rest, i, o, d, l, js⟩ next)
    ∧ p1SixPushes.queueHead = 0
    ∧ p1SixPushes.cells.getD 0 .undefined = Cell.resCell 5
    ∧ (p1PopHead p1SixPushes).map (fun x => x.1) = some (Cell.resCell 5)
    ∧ ¬ (p1PopHead p1SixPushes).map (fun x => x.1) = some (Cell.taskCell 0) := by
  refine ⟨fun errs a i o d l js next rest => rfl, rfl, rfl, rfl, ?_⟩
  decide

/-- C9.  Task execution is never synchronous inside the `schedule` call
that admitted it: `scheduleCall` leaves the trace unchanged (a body
execution would have recorded `bodyRun`), captures no error, settles
nothing, and at most appends the task as a deferred `runTask` microtask
to be picked up by a later `stepJob`. -/
theorem claim9_schedule_defers (mc : Conc) (s : EngineState) (t : Task) :
    ((scheduleCall mc s t).1).log = s.log
    ∧ ((scheduleCall mc s t).1).errors = s.errors
    ∧ ((scheduleCall mc s t).1).settled = s.settled
    ∧ (((scheduleCall mc s t).1).jobs = s.jobs
        ∨ ((scheduleCall mc s t).1).jobs = s.jobs ++ [Job.runTask t]) := by
  unfold scheduleCall
  dsimp only
  split
  · exact ⟨rfl, rfl, rfl, Or.inl rfl⟩
  · split
    · exact ⟨by simp [scheduleTask], by simp [scheduleTask], by simp [scheduleTask],
        Or.inr (by simp [scheduleTask])⟩
    · exact ⟨rfl, rfl, rfl, Or.inl rfl⟩

/-- C10.  A synchronously-throwing initializer does not make
`scheduleAndRun` re-raise: the entry point still returns the running
instance (first conjunct; only `maxConcurrency` validation can make it
fail synchronously), the thrown value is routed through the very same
rejection reaction an asynchronously-failing initializer would get
(third conjunct: the pending job is `reaction true (.error e)`, handled
by `handleRejection`), and with no hooks the completion rejects with an
aggregate containing exactly the thrown value. -/
theorem claim10_sync_throw_captured (e : Val) (mc : Conc) (subs : List Task)
    (opts : Option OptsObj) :
    scheduleAndRun (Task.mk [] (.error e)) none
      = .ok (startEngine .unbounded (Task.mk [] (.error e)) none)
    ∧ (runN .unbounded 1 (startEngine .unbounded (Task.mk [] (.error e)) none)).settled
      = some (.rejected [e])
    ∧ ∃ pre, (startEngine mc (Task.mk subs (.error e)) opts).jobs
        = pre ++ [Job.reaction true (.error e)] := by
  refine ⟨rfl, rfl, ?_⟩
  unfold startEngine
  dsimp only
  exact ⟨_, rfl⟩

end PromiseSched
